import Mathlib

/-!
Shallow embedding of `functions/planner.py` (open-webui-tools "Planner" pipe):
the action data model, the per-action reflection loop (`Pipe.execute_action`),
the plan scheduler (`Pipe.execute_plan`), plan compilation (`Pipe.create_plan`)
and result synthesis (`Pipe.synthesize_results`), together with theorems
settling the frozen claims about them.

External effects are modelled by oracles and traces:
* the generation/evaluation client is an oracle giving each attempt's outcome;
* event emission and status-field assignments are recorded as pure traces.
-/

namespace Planner

/-- Action status strings of `planner.py` (`Action.status`:
"pending", "in_progress", "completed", "failed"). -/
inductive Status
  | pending
  | in_progress
  | completed
  | failed
  deriving DecidableEq, Repr

/-- Levels of the status events emitted through `Pipe.emit_status`
(`"info" | "warning" | "error" | "success"`). -/
inductive EvLevel
  | info
  | warning
  | error
  | success
  deriving DecidableEq, Repr

/-- Outcome of one attempt of the reflection loop in `Pipe.execute_action`,
as decided by the external client:
* `genFail`: the streamed generation (`get_streaming_completion`, lines 301-308) raises;
* `evalFail out`: streaming returns `out` but the evaluation call
  (`get_completion(reflection_prompt)`, line 345) raises;
* `evalOk out reply`: streaming returns `out` and the evaluation call returns `reply`. -/
inductive AttemptOutcome
  | genFail
  | evalFail (out : String)
  | evalOk (out : String) (reply : String)

/-- Python `str.isspace` characters for the ASCII range, as used by `str.strip()`. -/
def pyIsSpace (c : Char) : Bool :=
  c = ' ' || c = '\t' || c = '\n' || c = '\r' || c = '\x0b' || c = '\x0c'

/-- Python `str.strip()` (ASCII whitespace): drop whitespace from both ends. -/
def pyStrip (s : String) : String :=
  String.mk (((s.data.dropWhile pyIsSpace).reverse.dropWhile pyIsSpace).reverse)

/-- Python `str.lower()` restricted to ASCII, matching `Char.toLower`. -/
def pyLower (s : String) : String :=
  String.mk (s.data.map Char.toLower)

/-- Rejection test of the reflection loops, `planner.py` lines 350 and 544:
`reflection_result.strip().lower() == "no"`. -/
def isRejected (reply : String) : Bool :=
  pyLower (pyStrip reply) == "no"

/-- Result of one call of `Pipe.execute_action`: the action's final mutable
fields, the emitted status-event levels, the sequence of values assigned to
`action.status`, the number of generation calls (streamed completions) and of
evaluation calls, and the returned value (`Except.error` models a raised
exception propagating out of the executor). -/
structure ExecResult where
  status : Status
  output : Option String
  endTimeSet : Bool
  events : List EvLevel
  statusTrace : List Status
  genCalls : Nat
  evalCalls : Nat
  retval : Except Unit (Option String)

/-- Reflection loop of `Pipe.execute_action` (lines 288-404).
`attempt` is the Python `reflection_attempts` counter and `rem` is the number of
attempts the `while reflection_attempts <= reflection_max_retries` guard still
allows (at entry `rem = maxRetries + 1 - attempt`); the retry test
`reflection_attempts < reflection_max_retries` (line 351) is `1 ≤ rem - 1`.
`lastOut` is the local `last_output`, `curOut` the current `action.output`.
The `rem = 0` base case is the safeguard return at line 404. -/
def execLoop (env : Nat → AttemptOutcome) (attempt : Nat) (rem : Nat)
    (lastOut curOut : Option String) (events : List EvLevel)
    (strace : List Status) (g e : Nat) : ExecResult :=
  match rem with
  | 0 => ⟨.in_progress, curOut, false, events, strace, g, e, .ok lastOut⟩
  | rem' + 1 =>
    -- line 290: emit "Starting (Attempt ...)"; line 295: `action.status = "in_progress"`
    let events := events ++ [.info]
    let strace := strace ++ [.in_progress]
    match env attempt with
    | .genFail =>
      -- lines 309-319 then the outer handler 390-400: status "failed" twice,
      -- end_time stamped, two error events, exception re-raised
      ⟨.failed, curOut, true, events ++ [.error, .error],
        strace ++ [.failed, .failed], g + 1, e, .error ()⟩
    | .evalFail out =>
      -- lines 321-327 ran (output stored, "Analyzing" info event), then the
      -- evaluation call raised; outer handler 390-400 marks failed and re-raises
      ⟨.failed, some out, true, events ++ [.info, .error],
        strace ++ [.failed], g + 1, e + 1, .error ()⟩
    | .evalOk out reply =>
      if isRejected reply then
        if 0 < rem' then
          -- lines 351-371: warning event, correction prompt, retry
          execLoop env (attempt + 1) rem' (some out) (some out)
            (events ++ [.info, .warning]) strace (g + 1) (e + 1)
        else
          -- lines 372-381: retries exhausted: completed with warning, last output
          ⟨.completed, some out, true, events ++ [.info, .warning],
            strace ++ [.completed], g + 1, e + 1, .ok (some out)⟩
      else
        -- lines 382-388: accepted: completed with success event
        ⟨.completed, some out, true, events ++ [.info, .success],
          strace ++ [.completed], g + 1, e + 1, .ok (some out)⟩

/-- `Pipe.execute_action` (lines 249-404): stamps `start_time`, sets the status
to `in_progress` (line 254) and runs the reflection loop with
`reflection_attempts = 0` and `last_output = None`. `initOut` is the value of
`action.output` at entry (it is only overwritten after a successful stream). -/
def executeAction (env : Nat → AttemptOutcome) (maxRetries : Nat)
    (initOut : Option String) : ExecResult :=
  execLoop env 0 (maxRetries + 1) none initOut [] [.in_progress] 0 0

example : isRejected "no" = true := by decide
example : isRejected " No. " = false := by decide
example : isRejected "NO!" = false := by decide
example : isRejected "" = false := by decide
example : isRejected "  nO \t" = true := by decide
example : (executeAction (fun _ => .evalOk "x" "yes") 3 none).genCalls = 1 := by decide
example : (executeAction (fun _ => .evalOk "x" "no") 1 none).genCalls = 2 := by decide
example : (executeAction (fun _ => .genFail) 3 none).status = .failed := by decide

/-- Static part of an `Action` of the plan: its `id` and its `dependencies`
list (the other fields of the pydantic model do not influence scheduling). -/
structure SAction where
  id : String
  dependencies : List String
  deriving DecidableEq, Repr

/-- Mutable per-action state touched by `execute_action`: `status`, `output`
and whether `start_time`/`end_time` have been stamped. -/
structure ActionState where
  status : Status
  output : Option String
  startTimeSet : Bool
  endTimeSet : Bool
  deriving DecidableEq, Repr

/-- Initial state of every action (`Action` model defaults: status "pending",
no output, no timestamps). -/
def initActionState : ActionState :=
  ⟨.pending, none, false, false⟩

/-- Observable events of one plan execution:
* `setStatus id st`: an assignment `action.status = st` on the action `id`;
* `dispatch id deps inFlight completedAt`: `execute_plan` admits action `id`
  (with dependency list `deps`) into `in_progress` and dispatches it to
  `execute_action`; `inFlight` is `len(in_progress)` right after the
  admission (line 437) and `completedAt` the `completed` set at that moment. -/
inductive TraceEv
  | setStatus (id : String) (st : Status)
  | dispatch (id : String) (deps : List String) (inFlight : Nat)
      (completedAt : List String)
  deriving DecidableEq, Repr

/-- Ids of the `dispatch` events of a trace, in order. -/
def dispatchIds (tr : List TraceEv) : List String :=
  tr.filterMap fun ev =>
    match ev with
    | .dispatch id _ _ _ => some id
    | _ => none

/-- Number of times action `id` was dispatched to `execute_action` in `tr`. -/
def dispatchCount (tr : List TraceEv) (id : String) : Nat :=
  (dispatchIds tr).count id

/-- State of the scheduling loop of `Pipe.execute_plan` (lines 406-463):
the plan's actions with their mutable state, the `completed` set, the
`in_progress` set, the `results` map, the event trace and the cumulative
generation/evaluation call counters of all dispatched executions. -/
structure SchedState where
  acts : List (SAction × ActionState)
  completed : List String
  inProgress : List String
  results : List (String × Option String)
  trace : List TraceEv
  genCalls : Nat
  evalCalls : Nat
  deriving DecidableEq, Repr

/-- Value of `action.output` for the action `id` in the current state. -/
def currentOutput (acts : List (SAction × ActionState)) (id : String) :
    Option String :=
  match acts.find? (fun p => p.1.id == id) with
  | some p => p.2.output
  | none => none

/-- Replace the state of the action `id` (the Python code mutates the single
`Action` object held in `plan.actions`). -/
def updateAct (acts : List (SAction × ActionState)) (id : String)
    (f : ActionState → ActionState) : List (SAction × ActionState) :=
  acts.map fun p => if p.1.id = id then (p.1, f p.2) else p

/-- Lines 436-449 of `execute_plan` for one admitted action: add it to
`in_progress`, await `execute_action` to completion; on a returned value store
it in `results` and add the id to `completed` (lines 443-444); on a raised
exception only log (lines 446-447); finally remove the id from `in_progress`
(line 449). The scheduler-level oracle `env` gives, per action id and per
dispatch index, the attempt oracle of that execution. -/
def dispatchOne (env : String → Nat → Nat → AttemptOutcome) (maxR : Nat)
    (a : SAction) (s : SchedState) : SchedState :=
  let dIdx := dispatchCount s.trace a.id
  let inP := s.inProgress ++ [a.id]
  let trD := s.trace ++ [.dispatch a.id a.dependencies inP.length s.completed]
  let r := executeAction (env a.id dIdx) maxR (currentOutput s.acts a.id)
  let acts' := updateAct s.acts a.id fun st =>
    ⟨r.status, r.output, true, st.endTimeSet || r.endTimeSet⟩
  let tr' := trD ++ r.statusTrace.map (fun st => TraceEv.setStatus a.id st)
  let g' := s.genCalls + r.genCalls
  let e' := s.evalCalls + r.evalCalls
  match r.retval with
  | .ok v =>
    ⟨acts', s.completed ++ [a.id], inP.erase a.id,
      s.results ++ [(a.id, v)], tr', g', e'⟩
  | .error _ =>
    ⟨acts', s.completed, inP.erase a.id, s.results, tr', g', e'⟩

/-- The `can_execute` check (lines 413-414): every dependency id is in the
completed set. -/
def canExecute (completed : List String) (a : SAction) : Bool :=
  a.dependencies.all (fun d => completed.contains d)

/-- The `available` list (lines 421-427): actions not completed, not in
flight, and whose dependencies are all completed, in declaration order. -/
def availableOf (s : SchedState) : List SAction :=
  (s.acts.filter fun p =>
    !(s.completed.contains p.1.id) && !(s.inProgress.contains p.1.id) &&
      canExecute s.completed p.1).map Prod.fst

/-- Inner admission loop (line 435): `while available and len(in_progress) <
CONCURRENT_ACTIONS`, pop the front of `available` and run it. -/
def runBatch (env : String → Nat → Nat → AttemptOutcome) (maxR conc : Nat) :
    List SAction → SchedState → SchedState
  | [], s => s
  | a :: rest, s =>
    if s.inProgress.length < conc then
      runBatch env maxR conc rest (dispatchOne env maxR a s)
    else s

/-- One iteration of the outer `while` loop body (lines 417-449): compute
`available`; if it is empty, `break` out of the loop when nothing is in flight
(`none`) or sleep and re-poll otherwise; else admit and run the batch. -/
def schedStep (env : String → Nat → Nat → AttemptOutcome) (maxR conc : Nat)
    (s : SchedState) : Option SchedState :=
  if (availableOf s).isEmpty then
    if s.inProgress.isEmpty then none else some s
  else
    some (runBatch env maxR conc (availableOf s) s)

/-- Fuel-bounded run of the outer loop `while len(completed) <
len(plan.actions)` (line 416). Returns the final state and whether the loop
exited (`true`) or the fuel ran out with the loop still running (`false`). -/
def runSched (env : String → Nat → Nat → AttemptOutcome) (maxR conc : Nat) :
    Nat → SchedState → SchedState × Bool
  | 0, s => (s, false)
  | fuel + 1, s =>
    if s.completed.length < s.acts.length then
      match schedStep env maxR conc s with
      | none => (s, true)
      | some s' => runSched env maxR conc fuel s'
    else (s, true)

/-- Initial scheduler state for a plan's action list (`results = {}`,
`in_progress = set()`, `completed = set()`, lines 408-410). -/
def initState (acts : List SAction) : SchedState :=
  ⟨acts.map (fun a => (a, initActionState)), [], [], [], [], 0, 0⟩

example :
    (runSched (fun _ _ _ => .evalOk "x" "yes") 3 2 3
      (initState [⟨"a", []⟩, ⟨"b", ["a"]⟩])).2 = true := by decide
example :
    (runSched (fun _ _ _ => .evalOk "x" "yes") 3 2 3
      (initState [⟨"a", []⟩, ⟨"b", ["a"]⟩])).1.completed = ["a", "b"] := by decide
example :
    (runSched (fun _ _ _ => .genFail) 0 2 2 (initState [⟨"a", []⟩])).2
      = false := by decide
example :
    dispatchCount (runSched (fun _ _ _ => .genFail) 0 2 2
      (initState [⟨"a", []⟩])).1.trace "a" = 2 := by decide
example :
    (runSched (fun _ _ _ => .evalOk "x" "yes") 3 2 2
      (initState [⟨"a", ["z"]⟩])).2 = true := by decide

/-- Python exceptions that `planner.py` can raise or propagate.
`jsonDecodeError` is `json.JSONDecodeError` from `json.loads`,
`validationError` a pydantic error from `Plan(**plan_dict)`,
`runtimeError` a `RuntimeError` (e.g. from `get_streaming_completion` or
line 245), `nameError` a `NameError` from evaluating an unbound name.
`planCompilationError` is modelled from the spec: §4.2 names a
`PlanCompilationError` class; no such class exists anywhere in `src`, the
constructor is declared here only so that the spec's statement about it can be
expressed and compared with what the code raises. -/
inductive PyErr
  | jsonDecodeError (msg : String)
  | validationError (msg : String)
  | runtimeError (msg : String)
  | nameError (missing : String)
  | planCompilationError (msg : String)
  deriving DecidableEq, Repr

/-- Whether an error is the spec's `PlanCompilationError`. -/
def PyErr.isCompilationError : PyErr → Bool
  | .planCompilationError _ => true
  | _ => false

deriving instance DecidableEq for Except

/-- Payload of a successfully compiled plan (goal and parsed actions); its
content is irrelevant to the control flow of `create_plan`. -/
structure PlanData where
  goal : String
  actions : List SAction
  deriving DecidableEq, Repr

/-- Result of `Pipe.create_plan`: the returned plan or the raised error, the
number of completion calls made, and the number of `asyncio.sleep(1)` delays
taken between attempts. -/
structure CreateResult where
  result : Except PyErr PlanData
  genCalls : Nat
  sleeps : Nat
  deriving DecidableEq, Repr

/-- Retry loop of `Pipe.create_plan` (lines 231-247):
`for attempt in range(MAX_RETRIES)`: one attempt is the completion call plus
`json.loads` plus `Plan(**plan_dict)`, modelled by the oracle `env` as either
a `PlanData` or the raised error. On an error, `if attempt < MAX_RETRIES - 1`
sleep one second and continue, else re-raise the caught error (line 244).
`rem` is the number of loop iterations left (`MAX_RETRIES - attempt`); the
`rem = 0` case is the fall-through `RuntimeError` at lines 245-247, reached
only when `MAX_RETRIES = 0`. -/
def createPlanLoop (env : Nat → Except PyErr PlanData) (maxR : Nat) :
    Nat → Nat → Nat → Nat → CreateResult
  | _, 0, g, sl =>
    ⟨.error (.runtimeError
      ("Failed to create plan after " ++ toString maxR ++ " attempts")), g, sl⟩
  | attempt, rem + 1, g, sl =>
    match env attempt with
    | .ok p => ⟨.ok p, g + 1, sl⟩
    | .error err =>
      if attempt < maxR - 1 then
        createPlanLoop env maxR (attempt + 1) rem (g + 1) (sl + 1)
      else
        ⟨.error err, g + 1, sl⟩

/-- `Pipe.create_plan` (lines 194-247) for a given `MAX_RETRIES` valve. -/
def createPlan (env : Nat → Except PyErr PlanData) (maxR : Nat) : CreateResult :=
  createPlanLoop env maxR 0 maxR 0 0

example :
    (createPlan (fun j => .error (.jsonDecodeError (toString j))) 3).result
      = .error (.jsonDecodeError "2") := by decide
example :
    (createPlan (fun j => .error (.jsonDecodeError (toString j))) 3).sleeps
      = 2 := by decide
example :
    (createPlan (fun _ => .ok ⟨"g", []⟩) 3).genCalls = 1 := by decide

/-- Outcome of one synthesis attempt's external calls, were they reached:
`streamFail e` models the streamed completion raising `e`, `evalFail out e`
the evaluation call raising after the stream returned `out`, and
`evalOk out reply` both succeeding. -/
inductive SynthOutcome
  | streamFail (e : PyErr)
  | evalFail (out : String) (e : PyErr)
  | evalOk (out : String) (reply : String)

/-- How the `try` body of one `synthesize_results` attempt exits:
an exception reaches the `except` handler, or `return plan.final_output`
executes, or the rejection branch hits `continue`. -/
inductive BodyExit
  | raised (err : PyErr)
  | returned (v : Option String)
  | rejected
  deriving Repr

/-- First statement of the `try` body of `synthesize_results` (lines 501-505):
`emit_status` is passed the f-string
`"Creating final result... (Attempt {reflection_attempts + 1}/...)"`.
`reflection_attempts` is a local of `execute_action` and is unbound in
`synthesize_results`, so evaluating the f-string raises `NameError` before
the status event is emitted. -/
def synthEmitAttemptStatus (_attempt _maxR : Nat) : Except PyErr Unit :=
  .error (.nameError "reflection_attempts")

/-- The `try` body of one attempt of `synthesize_results` (lines 500-575):
first the status emission of lines 501-505 (which raises `NameError`, see
`synthEmitAttemptStatus`); then — were it reached — the streamed completion
accumulated into `plan.final_output` (line 520), the evaluation call, and
either `continue` on a rejected reply (line 570) or
`return plan.final_output` (line 575). Returns the updated
`plan.final_output`, the exit kind, and the generation/evaluation calls made. -/
def synthBody (env : Nat → SynthOutcome) (maxR attempt : Nat)
    (finalOut : Option String) : Option String × BodyExit × Nat × Nat :=
  match synthEmitAttemptStatus attempt maxR with
  | .error e => (finalOut, .raised e, 0, 0)
  | .ok _ =>
    match env attempt with
    | .streamFail e => (finalOut, .raised e, 1, 0)
    | .evalFail out e => (some out, .raised e, 1, 1)
    | .evalOk out reply =>
      if isRejected reply then (some out, .rejected, 1, 1)
      else (some out, .returned (some out), 1, 1)

/-- Result of `Pipe.synthesize_results`: the returned value (`none` when the
Python function returns `None` or an unset `plan.final_output`), the number of
`asyncio.sleep(1)` delays, and the generation/evaluation calls made. The
function never raises: every exception of the body is caught at line 577. -/
structure SynthResult where
  retval : Option String
  sleeps : Nat
  genCalls : Nat
  evalCalls : Nat
  deriving DecidableEq, Repr

/-- Retry loop of `Pipe.synthesize_results` (lines 499-595):
`for attempt in range(MAX_RETRIES)` over the body `synthBody`; a raised
exception is caught (line 577) and — `if attempt < MAX_RETRIES - 1` — the loop
sleeps and continues, else returns `plan.final_output` (line 595); a rejected
reply just continues; falling off the loop returns Python's implicit `None`. -/
def synthLoop (env : Nat → SynthOutcome) (maxR : Nat) :
    Nat → Nat → Option String → Nat → Nat → Nat → SynthResult
  | _, 0, _, sl, g, e => ⟨none, sl, g, e⟩
  | attempt, rem + 1, finalOut, sl, g, e =>
    match synthBody env maxR attempt finalOut with
    | (_, .returned v, dg, de) => ⟨v, sl, g + dg, e + de⟩
    | (f', .rejected, dg, de) =>
      synthLoop env maxR (attempt + 1) rem f' sl (g + dg) (e + de)
    | (f', .raised _, dg, de) =>
      if attempt < maxR - 1 then
        synthLoop env maxR (attempt + 1) rem f' (sl + 1) (g + dg) (e + de)
      else
        ⟨f', sl, g + dg, e + de⟩

/-- `Pipe.synthesize_results` for a given `MAX_RETRIES` valve, starting from
the current `plan.final_output` value `f0`. -/
def synthesizeResults (env : Nat → SynthOutcome) (maxR : Nat)
    (f0 : Option String) : SynthResult :=
  synthLoop env maxR 0 maxR f0 0 0 0

example :
    synthesizeResults (fun _ => .evalOk "x" "yes") 3 none
      = ⟨none, 2, 0, 0⟩ := by decide
example :
    synthesizeResults (fun _ => .streamFail (.runtimeError "r")) 3 (some "f")
      = ⟨some "f", 2, 0, 0⟩ := by decide

/-! ### Lemmas about the reflection loop of `execute_action` -/

/-- One rejected-and-retried iteration of the reflection loop. -/
theorem execLoop_rejected_step (env : Nat → AttemptOutcome) (attempt rem : Nat)
    (lastOut curOut : Option String) (ev : List EvLevel) (st : List Status)
    (g e : Nat) (out reply : String) (ho : env attempt = .evalOk out reply)
    (hr : isRejected reply = true) :
    execLoop env attempt (rem + 2) lastOut curOut ev st g e =
      execLoop env (attempt + 1) (rem + 1) (some out) (some out)
        (ev ++ [.info, .info, .warning]) (st ++ [.in_progress])
        (g + 1) (e + 1) := by
  show execLoop env attempt ((rem + 1) + 1) lastOut curOut ev st g e = _
  simp [execLoop, ho, hr]

/-- The loop makes at least the generation calls already counted. -/
theorem execLoop_genCalls_le (env : Nat → AttemptOutcome) :
    ∀ (rem attempt : Nat) (lastOut curOut : Option String)
      (ev : List EvLevel) (st : List Status) (g e : Nat),
      g ≤ (execLoop env attempt rem lastOut curOut ev st g e).genCalls := by
  intro rem
  induction rem with
  | zero => intro attempt lastOut curOut ev st g e; simp [execLoop]
  | succ rem' ih =>
    intro attempt lastOut curOut ev st g e
    simp only [execLoop]
    cases env attempt with
    | genFail => simp
    | evalFail out => simp
    | evalOk out reply =>
      by_cases hr : isRejected reply = true
      · simp only [hr, if_true]
        by_cases hrem : 0 < rem'
        · simp only [hrem, if_true]
          exact Nat.le_trans (Nat.le_succ g) (ih _ _ _ _ _ _ _)
        · simp [hrem]
      · simp [hr]

/-- With at least one attempt left, the loop makes at least one more
generation call. -/
theorem execLoop_one_more_genCall (env : Nat → AttemptOutcome)
    (rem attempt : Nat) (lastOut curOut : Option String) (ev : List EvLevel)
    (st : List Status) (g e : Nat) (h : 1 ≤ rem) :
    g + 1 ≤ (execLoop env attempt rem lastOut curOut ev st g e).genCalls := by
  obtain ⟨rem', rfl⟩ : ∃ rem', rem = rem' + 1 := ⟨rem - 1, by omega⟩
  simp only [execLoop]
  cases env attempt with
  | genFail => simp
  | evalFail out => simp
  | evalOk out reply =>
    by_cases hr : isRejected reply = true
    · simp only [hr, if_true]
      by_cases hrem : 0 < rem'
      · simp only [hrem, if_true]
        exact execLoop_genCalls_le env _ _ _ _ _ _ _ _
      · simp [hrem]
    · simp [hr]

/-- A first-attempt accepted execution: exactly one generation call, one
evaluation call, status `completed`, success event, output returned. -/
theorem executeAction_accepted (env : Nat → AttemptOutcome) (maxR : Nat)
    (initOut : Option String) (out reply : String)
    (ho : env 0 = .evalOk out reply) (hr : isRejected reply = false) :
    executeAction env maxR initOut =
      ⟨.completed, some out, true, [.info, .info, .success],
        [.in_progress, .in_progress, .completed], 1, 1, .ok (some out)⟩ := by
  simp [executeAction, execLoop, ho, hr]

/-- A failing attempt after `k` rejected attempts: the exception propagates,
the action is failed with `end_time` stamped and an error event, and exactly
`k + 1` generation calls were made (no retry after the failure). -/
theorem execLoop_fail_core (env : Nat → AttemptOutcome) :
    ∀ (k attempt rem : Nat) (lastOut curOut : Option String)
      (ev : List EvLevel) (st : List Status) (g e : Nat),
      (∀ j, j < k →
        ∃ out reply, env (attempt + j) = .evalOk out reply ∧
          isRejected reply = true) →
      k + 1 ≤ rem →
      (env (attempt + k) = .genFail ∨ ∃ out, env (attempt + k) = .evalFail out) →
      (execLoop env attempt rem lastOut curOut ev st g e).retval = .error () ∧
      (execLoop env attempt rem lastOut curOut ev st g e).status = .failed ∧
      (execLoop env attempt rem lastOut curOut ev st g e).endTimeSet = true ∧
      EvLevel.error ∈ (execLoop env attempt rem lastOut curOut ev st g e).events ∧
      (execLoop env attempt rem lastOut curOut ev st g e).genCalls = g + (k + 1) := by
  intro k
  induction k with
  | zero =>
    intro attempt rem lastOut curOut ev st g e _ hrem hfail
    obtain ⟨rem', rfl⟩ : ∃ rem', rem = rem' + 1 := ⟨rem - 1, by omega⟩
    rcases hfail with hf | ⟨out, hf⟩ <;>
      · rw [Nat.add_zero] at hf
        simp [execLoop, hf]
  | succ k ih =>
    intro attempt rem lastOut curOut ev st g e hrej hrem hfail
    obtain ⟨out, reply, ho, hr⟩ := hrej 0 (Nat.succ_pos k)
    rw [Nat.add_zero] at ho
    obtain ⟨rem', rfl⟩ : ∃ rem', rem = rem' + 2 := ⟨rem - 2, by omega⟩
    rw [execLoop_rejected_step env attempt rem' lastOut curOut ev st g e out
      reply ho hr]
    have hrej' : ∀ j, j < k →
        ∃ o r, env (attempt + 1 + j) = .evalOk o r ∧ isRejected r = true := by
      intro j hj
      have := hrej (j + 1) (by omega)
      rwa [show attempt + (j + 1) = attempt + 1 + j by omega] at this
    have hfail' :
        env (attempt + 1 + k) = .genFail ∨
          ∃ o, env (attempt + 1 + k) = .evalFail o := by
      rwa [show attempt + 1 + k = attempt + (k + 1) by omega]
    have h := ih (attempt + 1) (rem' + 1) (some out) (some out)
      (ev ++ [.info, .info, .warning]) (st ++ [.in_progress]) (g + 1) (e + 1)
      hrej' (by omega) hfail'
    refine ⟨h.1, h.2.1, h.2.2.1, h.2.2.2.1, ?_⟩
    rw [h.2.2.2.2]; omega

/-- All attempts rejected: the loop exhausts its `rem` attempts, completes
with a warning and returns the last attempt's output. -/
theorem execLoop_allRejected (env : Nat → AttemptOutcome) (o r : Nat → String) :
    ∀ (rem attempt : Nat) (lastOut curOut : Option String)
      (ev : List EvLevel) (st : List Status) (g e : Nat),
      1 ≤ rem →
      (∀ j, j < rem →
        env (attempt + j) = .evalOk (o (attempt + j)) (r (attempt + j)) ∧
          isRejected (r (attempt + j)) = true) →
      (execLoop env attempt rem lastOut curOut ev st g e).status = .completed ∧
      (execLoop env attempt rem lastOut curOut ev st g e).endTimeSet = true ∧
      (execLoop env attempt rem lastOut curOut ev st g e).retval
          = .ok (some (o (attempt + rem - 1))) ∧
      (execLoop env attempt rem lastOut curOut ev st g e).genCalls = g + rem ∧
      (execLoop env attempt rem lastOut curOut ev st g e).evalCalls = e + rem ∧
      EvLevel.warning ∈ (execLoop env attempt rem lastOut curOut ev st g e).events := by
  intro rem
  induction rem with
  | zero => intro attempt _ _ _ _ _ _ h; omega
  | succ rem' ih =>
    intro attempt lastOut curOut ev st g e _ hrej
    cases rem' with
    | zero =>
      obtain ⟨ho, hr⟩ := hrej 0 Nat.one_pos
      rw [Nat.add_zero] at ho hr
      simp [execLoop, ho, hr]
    | succ rem'' =>
      obtain ⟨ho, hr⟩ := hrej 0 (Nat.succ_pos _)
      rw [Nat.add_zero] at ho hr
      rw [execLoop_rejected_step env attempt rem'' lastOut curOut ev st g e _ _
        ho hr]
      have hrej' : ∀ j, j < rem'' + 1 →
          env (attempt + 1 + j) = .evalOk (o (attempt + 1 + j)) (r (attempt + 1 + j)) ∧
            isRejected (r (attempt + 1 + j)) = true := by
        intro j hj
        have := hrej (j + 1) (by omega)
        rwa [show attempt + (j + 1) = attempt + 1 + j by omega] at this
      have h := ih (attempt + 1) (some (o attempt)) (some (o attempt))
        (ev ++ [.info, .info, .warning]) (st ++ [.in_progress]) (g + 1) (e + 1)
        (by omega) hrej'
      have harg : attempt + 1 + (rem'' + 1) - 1 = attempt + (rem'' + 1 + 1) - 1 := by
        omega
      refine ⟨h.1, h.2.1, ?_, ?_, ?_, h.2.2.2.2.2⟩
      · rw [h.2.2.1, harg]
      · rw [h.2.2.2.1]; omega
      · rw [h.2.2.2.2.1]; omega

/-! ### Claim C10 -/

/-- C10: in the reflection loops a candidate output is rejected only when the
evaluator's reply, stripped and lowercased, equals exactly `"no"`; any other
reply — including `"No."`, `"NO!"`, the empty string, or an unrelated
sentence — is treated as approval and the candidate output is accepted
(returned from the first attempt with exactly one generation call), while a
normalized-`"no"` reply triggers a retry. The rejection predicate `isRejected`
is the shared test of `planner.py` lines 350 and 544. -/
theorem claim_C10 :
    (∀ (env : Nat → AttemptOutcome) (maxR : Nat) (initOut : Option String)
       (out reply : String),
       env 0 = .evalOk out reply → pyLower (pyStrip reply) ≠ "no" →
       (executeAction env maxR initOut).retval = .ok (some out) ∧
       (executeAction env maxR initOut).status = .completed ∧
       (executeAction env maxR initOut).genCalls = 1) ∧
    (∀ (env : Nat → AttemptOutcome) (maxR : Nat) (initOut : Option String)
       (out reply : String),
       env 0 = .evalOk out reply → pyLower (pyStrip reply) = "no" → 1 ≤ maxR →
       2 ≤ (executeAction env maxR initOut).genCalls) ∧
    (∀ reply : String, isRejected reply = (pyLower (pyStrip reply) == "no")) ∧
    isRejected "No." = false ∧ isRejected "NO!" = false ∧
    isRejected "" = false ∧ isRejected "that output is wrong" = false ∧
    isRejected " no " = true := by
  refine ⟨?_, ?_, fun _ => rfl, by decide, by decide, by decide, by decide,
    by decide⟩
  · intro env maxR initOut out reply ho hno
    have hr : isRejected reply = false := by
      simp [isRejected, hno]
    rw [executeAction_accepted env maxR initOut out reply ho hr]
    exact ⟨rfl, rfl, rfl⟩
  · intro env maxR initOut out reply ho hno hmax
    have hr : isRejected reply = true := by
      simp [isRejected, hno]
    obtain ⟨m, rfl⟩ : ∃ m, maxR = m + 1 := ⟨maxR - 1, by omega⟩
    unfold executeAction
    rw [show m + 1 + 1 = m + 2 from rfl,
      execLoop_rejected_step env 0 m none initOut [] [.in_progress] 0 0 out
        reply ho hr]
    exact execLoop_one_more_genCall env (m + 1) 1 (some out) (some out) _ _ 1 1
      (by omega)

/-- Witness for C10 at the replies "Yes" (accepted, one generation call) and
"no" (rejected, retried). -/
theorem claim_C10_witness :
    (executeAction (fun _ => .evalOk "x" "Yes") 3 none).retval
        = .ok (some "x") ∧
    (executeAction (fun _ => .evalOk "x" "Yes") 3 none).genCalls = 1 ∧
    2 ≤ (executeAction (fun _ => .evalOk "x" "no") 1 none).genCalls :=
  ⟨(claim_C10.1 (fun _ => .evalOk "x" "Yes") 3 none "x" "Yes" rfl
      (by decide)).1,
   (claim_C10.1 (fun _ => .evalOk "x" "Yes") 3 none "x" "Yes" rfl
      (by decide)).2.2,
   claim_C10.2.1 (fun _ => .evalOk "x" "no") 1 none "x" "no" rfl (by decide)
      (by decide)⟩

/-! ### Claim C6 -/

/-- C6: if the evaluation answer is rejected on every attempt, the action
performs exactly `MAX_RETRIES + 1` generation attempts (and as many
evaluation calls), is then marked `completed` — not `failed` — with `end_time`
stamped and a warning status event, and the last produced candidate output is
returned as the accepted result. -/
theorem claim_C6 (env : Nat → AttemptOutcome) (o r : Nat → String)
    (maxR : Nat) (initOut : Option String)
    (h : ∀ j, j ≤ maxR →
      env j = .evalOk (o j) (r j) ∧ isRejected (r j) = true) :
    (executeAction env maxR initOut).status = .completed ∧
    (executeAction env maxR initOut).endTimeSet = true ∧
    (executeAction env maxR initOut).genCalls = maxR + 1 ∧
    (executeAction env maxR initOut).evalCalls = maxR + 1 ∧
    (executeAction env maxR initOut).retval = .ok (some (o maxR)) ∧
    EvLevel.warning ∈ (executeAction env maxR initOut).events := by
  have h' : ∀ j, j < maxR + 1 →
      env (0 + j) = .evalOk (o (0 + j)) (r (0 + j)) ∧
        isRejected (r (0 + j)) = true := by
    intro j hj
    rw [Nat.zero_add]
    exact h j (by omega)
  have hall := execLoop_allRejected env o r (maxR + 1) 0 none initOut []
    [.in_progress] 0 0 (by omega) h'
  have hidx : 0 + (maxR + 1) - 1 = maxR := by omega
  unfold executeAction
  refine ⟨hall.1, hall.2.1, ?_, ?_, ?_, hall.2.2.2.2.2⟩
  · rw [hall.2.2.2.1]; omega
  · rw [hall.2.2.2.2.1]; omega
  · rw [hall.2.2.1, hidx]

/-- Witness for C6: with `MAX_RETRIES = 1` and the evaluator replying "no"
both times, there are exactly two generation attempts, the action completes
with a warning, and the second output is returned. -/
theorem claim_C6_witness :
    (executeAction (fun j => .evalOk (toString j) "no") 1 none).status
        = .completed ∧
    (executeAction (fun j => .evalOk (toString j) "no") 1 none).genCalls = 2 ∧
    (executeAction (fun j => .evalOk (toString j) "no") 1 none).retval
        = .ok (some "1") :=
  have h := claim_C6 (fun j => .evalOk (toString j) "no") (fun j => toString j)
    (fun _ => "no") 1 none
    (fun _ _ => ⟨rfl, (by decide : isRejected "no" = true)⟩)
  ⟨h.1, h.2.2.1, h.2.2.2.2.1⟩

/-! ### Claim C5 -/

/-- Oracle for the concrete C5 scheduler scenario: action "a" always raises a
transport error while streaming; every other action succeeds at once. -/
def envC5 : String → Nat → Nat → AttemptOutcome := fun id _ _ =>
  if id = "a" then .genFail else .evalOk "out" "yes"

/-- C5: if the generation client raises during an action's streamed generation
or its evaluation call (after `k` evaluator-rejected attempts), the executor
does not retry: the action's status becomes `failed`, `end_time` is stamped,
an error status event is emitted, the exception propagates out
(`retval = .error ()`), and exactly `k + 1` generation calls were made.
Moreover the scheduler catches the propagated exception and continues with
other actions: in the concrete two-action plan where "a" always raises while
"b" succeeds, "a" ends `failed` and "b" still ends `completed`. -/
theorem claim_C5 (env : Nat → AttemptOutcome) (maxR k : Nat)
    (initOut : Option String)
    (hrej : ∀ j, j < k →
      ∃ out reply, env j = .evalOk out reply ∧ isRejected reply = true)
    (hk : k ≤ maxR)
    (hfail : env k = .genFail ∨ ∃ out, env k = .evalFail out) :
    ((executeAction env maxR initOut).retval = .error () ∧
     (executeAction env maxR initOut).status = .failed ∧
     (executeAction env maxR initOut).endTimeSet = true ∧
     EvLevel.error ∈ (executeAction env maxR initOut).events ∧
     (executeAction env maxR initOut).genCalls = k + 1) ∧
    ((runSched envC5 0 2 2 (initState [⟨"a", []⟩, ⟨"b", []⟩])).1.acts.map
        fun p => (p.1.id, p.2.status))
      = [("a", .failed), ("b", .completed)] := by
  constructor
  · have hrej' : ∀ j, j < k →
        ∃ out reply, env (0 + j) = .evalOk out reply ∧
          isRejected reply = true := by
      intro j hj
      rw [Nat.zero_add]; exact hrej j hj
    have hfail' : env (0 + k) = .genFail ∨ ∃ out, env (0 + k) = .evalFail out := by
      rw [Nat.zero_add]; exact hfail
    have h := execLoop_fail_core env k 0 (maxR + 1) none initOut []
      [.in_progress] 0 0 hrej' (by omega) hfail'
    unfold executeAction
    refine ⟨h.1, h.2.1, h.2.2.1, h.2.2.2.1, ?_⟩
    rw [h.2.2.2.2]; omega
  · decide

/-- Witness for C5: a generation failure on the very first attempt. -/
theorem claim_C5_witness :
    ((executeAction (fun _ => .genFail) 0 none).retval = .error () ∧
     (executeAction (fun _ => .genFail) 0 none).status = .failed ∧
     (executeAction (fun _ => .genFail) 0 none).endTimeSet = true ∧
     EvLevel.error ∈ (executeAction (fun _ => .genFail) 0 none).events ∧
     (executeAction (fun _ => .genFail) 0 none).genCalls = 0 + 1) ∧
    ((runSched envC5 0 2 2 (initState [⟨"a", []⟩, ⟨"b", []⟩])).1.acts.map
        fun p => (p.1.id, p.2.status))
      = [("a", .failed), ("b", .completed)] :=
  claim_C5 (fun _ => .genFail) 0 0 none
    (fun j hj => absurd hj (Nat.not_lt_zero j)) (Nat.le_refl 0) (Or.inl rfl)

/-! ### Claim C7 -/

/-- Whether `create_plan` raised the spec's `PlanCompilationError`. -/
def raisedCompilationError (c : CreateResult) : Bool :=
  match c.result with
  | .error e => e.isCompilationError
  | .ok _ => false

/-- Oracle on which every `create_plan` attempt fails with a distinct
`json.JSONDecodeError`. -/
def envC7 : Nat → Except PyErr PlanData := fun j =>
  .error (.jsonDecodeError (toString j))

/-- C7 counterexample: with `MAX_RETRIES = 3` and every attempt failing,
`create_plan` raises the last underlying `json.JSONDecodeError` itself — not
a `PlanCompilationError` carrying it; no `PlanCompilationError` is ever
constructed by the code. -/
theorem claim_C7_counterexample :
    (createPlan envC7 3).result = .error (.jsonDecodeError "2") ∧
    raisedCompilationError (createPlan envC7 3) = false := by
  decide

/-- One iteration of the `create_plan` retry loop. -/
theorem createPlanLoop_succ (env : Nat → Except PyErr PlanData)
    (maxR attempt rem g sl : Nat) :
    createPlanLoop env maxR attempt (rem + 1) g sl =
      match env attempt with
      | .ok p => ⟨.ok p, g + 1, sl⟩
      | .error err =>
        if attempt < maxR - 1 then
          createPlanLoop env maxR (attempt + 1) rem (g + 1) (sl + 1)
        else ⟨.error err, g + 1, sl⟩ := rfl

/-- All-attempts-failing run of the `create_plan` retry loop: the loop makes
one completion call per remaining iteration, sleeps one second between
consecutive attempts, and re-raises the error of the final attempt. -/
theorem createPlanLoop_allFail (env : Nat → Except PyErr PlanData)
    (errs : Nat → PyErr) (maxR : Nat)
    (henv : ∀ j, j < maxR → env j = .error (errs j)) :
    ∀ (rem attempt g sl : Nat), attempt + rem = maxR → 1 ≤ rem →
      createPlanLoop env maxR attempt rem g sl =
        ⟨.error (errs (maxR - 1)), g + rem, sl + (rem - 1)⟩ := by
  intro rem
  induction rem with
  | zero => intro attempt g sl _ h; omega
  | succ rem' ih =>
    intro attempt g sl hsum _
    have he : env attempt = .error (errs attempt) := henv attempt (by omega)
    cases rem' with
    | zero =>
      have hlast : ¬ attempt < maxR - 1 := by omega
      have hattempt : attempt = maxR - 1 := by omega
      subst hattempt
      rw [createPlanLoop_succ]
      simp only [he, hlast, if_false]
      simp
    | succ rem'' =>
      have hretry : attempt < maxR - 1 := by omega
      have h := ih (attempt + 1) (g + 1) (sl + 1) (by omega) (by omega)
      rw [createPlanLoop_succ]
      simp only [he]
      rw [if_pos hretry, h,
        show g + 1 + (rem'' + 1) = g + (rem'' + 1 + 1) from by omega,
        show sl + 1 + (rem'' + 1 - 1) = sl + (rem'' + 1 + 1 - 1) from by omega]

/-- C7 (amended): when every attempt of `create_plan` fails, the loop retries
up to `MAX_RETRIES` total attempts with a one-second sleep between consecutive
attempts, and on exhaustion re-raises the last underlying error itself (there
is no `PlanCompilationError` wrapper in the code). -/
theorem claim_C7 (env : Nat → Except PyErr PlanData) (errs : Nat → PyErr)
    (maxR : Nat) (hmax : 1 ≤ maxR)
    (henv : ∀ j, j < maxR → env j = .error (errs j)) :
    createPlan env maxR = ⟨.error (errs (maxR - 1)), maxR, maxR - 1⟩ := by
  unfold createPlan
  rw [createPlanLoop_allFail env errs maxR henv maxR 0 0 0 (by omega) hmax]
  simp

/-- Witness for C7: three failing attempts re-raise the third attempt's
`json.JSONDecodeError`, after three completion calls and two sleeps. -/
theorem claim_C7_witness :
    createPlan envC7 3 = ⟨.error (.jsonDecodeError "2"), 3, 2⟩ :=
  claim_C7 envC7 (fun j => .jsonDecodeError (toString j)) 3 (by omega)
    (fun _ _ => rfl)

/-! ### Claim C8 -/

/-- Every attempt body of `synthesize_results` raises before reaching the
streamed completion: the status emission at lines 501-505 evaluates the
unbound name `reflection_attempts`. -/
theorem synthBody_raises (env : Nat → SynthOutcome) (maxR attempt : Nat)
    (finalOut : Option String) :
    synthBody env maxR attempt finalOut
      = (finalOut, .raised (.nameError "reflection_attempts"), 0, 0) := rfl

/-- One iteration of the `synthesize_results` retry loop. -/
theorem synthLoop_succ (env : Nat → SynthOutcome) (maxR attempt rem : Nat)
    (f : Option String) (sl g e : Nat) :
    synthLoop env maxR attempt (rem + 1) f sl g e =
      match synthBody env maxR attempt f with
      | (_, .returned v, dg, de) => ⟨v, sl, g + dg, e + de⟩
      | (f', .rejected, dg, de) =>
        synthLoop env maxR (attempt + 1) rem f' sl (g + dg) (e + de)
      | (f', .raised _, dg, de) =>
        if attempt < maxR - 1 then
          synthLoop env maxR (attempt + 1) rem f' (sl + 1) (g + dg) (e + de)
        else ⟨f', sl, g + dg, e + de⟩ := rfl

/-- Helper for C8: the retry loop with every body raising returns the current
`plan.final_output` after sleeping between consecutive attempts. -/
theorem synthLoop_nameError (env : Nat → SynthOutcome) (maxR : Nat) :
    ∀ (rem attempt : Nat) (f : Option String) (sl g e : Nat),
      attempt + rem = maxR → 1 ≤ rem →
      synthLoop env maxR attempt rem f sl g e = ⟨f, sl + (rem - 1), g, e⟩ := by
  intro rem
  induction rem with
  | zero => intro attempt f sl g e _ h; omega
  | succ rem' ih =>
    intro attempt f sl g e hsum _
    cases rem' with
    | zero =>
      have hlast : ¬ attempt < maxR - 1 := by omega
      rw [synthLoop_succ]
      simp only [synthBody_raises, hlast, if_false]
      simp
    | succ rem'' =>
      have hretry : attempt < maxR - 1 := by omega
      have h := ih (attempt + 1) f (sl + 1) g e (by omega) (by omega)
      rw [synthLoop_succ]
      simp only [synthBody_raises, Nat.add_zero]
      rw [if_pos hretry, h,
        show sl + 1 + (rem'' + 1 - 1) = sl + (rem'' + 1 + 1 - 1) from by omega]

/-- C8: `synthesize_results` never raises and returns the last produced
`plan.final_output` — but because the status message of its first statement
references the unbound name `reflection_attempts`, every attempt raises
`NameError` before streaming: zero generation and zero evaluation calls are
made, `plan.final_output` is never written, and the entry value (unset in a
normal run) is returned after `MAX_RETRIES` caught attempts. -/
theorem claim_C8 (env : Nat → SynthOutcome) (maxR : Nat) (f0 : Option String)
    (hmax : 1 ≤ maxR) :
    synthesizeResults env maxR f0 = ⟨f0, maxR - 1, 0, 0⟩ := by
  unfold synthesizeResults
  rw [synthLoop_nameError env maxR maxR 0 f0 0 0 0 (by omega) hmax]
  simp

/-- Witness for C8: with `MAX_RETRIES = 3`, an oracle that would stream
successfully, and an unset `final_output`, the synthesizer returns `none`
after two sleeps and zero client calls. -/
theorem claim_C8_witness :
    synthesizeResults (fun _ => .evalOk "content" "yes") 3 none
      = ⟨none, 2, 0, 0⟩ :=
  claim_C8 (fun _ => .evalOk "content" "yes") 3 none (by omega)

/-! ### Claim C1 -/

/-- Terminal statuses of the state machine (`completed` or `failed`). -/
def isTerminalStatus : Status → Bool
  | .completed => true
  | .failed => true
  | _ => false

/-- Statuses assigned to the action `id` over a run, in order. -/
def statusesOf (tr : List TraceEv) (id : String) : List Status :=
  tr.filterMap fun ev =>
    match ev with
    | .setStatus i st => if i = id then some st else none
    | _ => none

/-- Whether a status-assignment sequence never transitions backward: once a
terminal status is assigned, every later assignment is terminal too. -/
def noBackward : List Status → Bool
  | [] => true
  | st :: rest =>
    (!isTerminalStatus st || rest.all isTerminalStatus) && noBackward rest

/-- Oracle under which every execution attempt of every action raises a
transport error while streaming. -/
def envFailAll : String → Nat → Nat → AttemptOutcome := fun _ _ _ => .genFail

/-- One-action plan whose single action "a" has no dependencies. -/
def planFailA : List SAction := [⟨"a", []⟩]

/-- C1 is false of the code: with a single dependency-free action whose
execution always raises, the scheduler loop of `execute_plan` catches the
exception but never adds "a" to `completed`, so "a" stays in `available` and
is dispatched again — within two loop iterations the status sequence of "a"
contains `failed` followed by `in_progress` (a backward transition), and the
scheduler has made a second execution attempt for an action already marked
`failed`. -/
theorem claim_C1 :
    noBackward (statusesOf
        ((runSched envFailAll 0 2 2 (initState planFailA)).1.trace) "a")
      = false ∧
    dispatchCount ((runSched envFailAll 0 2 2 (initState planFailA)).1.trace)
        "a" = 2 := by
  decide

/-! ### Claim C2 -/

/-- C2 is false of the code: with the same always-failing single action, the
scheduler loop never exits — for every fuel bound the outer `while` is still
running (`completed` stays empty, the failed action stays available, and it
keeps being re-dispatched), so `execute_plan` does not terminate. -/
theorem claim_C2 :
    ∀ fuel : Nat,
      (runSched envFailAll 0 2 fuel (initState planFailA)).2 = false ∧
      (runSched envFailAll 0 2 fuel (initState planFailA)).1.completed
        = [] := by
  suffices h : ∀ (fuel : Nat) (s : SchedState), s.completed = [] →
      s.inProgress = [] → (∃ st, s.acts = [(⟨"a", []⟩, st)]) →
      (runSched envFailAll 0 2 fuel s).2 = false ∧
      (runSched envFailAll 0 2 fuel s).1.completed = [] by
    intro fuel
    exact h fuel (initState planFailA) rfl rfl ⟨initActionState, rfl⟩
  intro fuel
  induction fuel with
  | zero =>
    intro s hc _ _
    exact ⟨rfl, hc⟩
  | succ fuel ih =>
    intro s hc hp hacts
    obtain ⟨st, hacts⟩ := hacts
    have hlen : s.completed.length < s.acts.length := by
      rw [hc, hacts]; simp
    have hstep : ∃ st', schedStep envFailAll 0 2 s
        = some ⟨[(⟨"a", []⟩, st')], [], [],
            s.results, s.trace ++
              [.dispatch "a" [] 1 []] ++
              [.setStatus "a" .in_progress, .setStatus "a" .in_progress,
                .setStatus "a" .failed, .setStatus "a" .failed],
            s.genCalls + 1, s.evalCalls⟩ := by
      refine ⟨⟨.failed, st.output, true, true⟩, ?_⟩
      simp [schedStep, availableOf, hacts, hc, hp, canExecute, runBatch,
        dispatchOne, executeAction, execLoop, envFailAll, updateAct,
        currentOutput]
    obtain ⟨st', hstep⟩ := hstep
    rw [runSched, if_pos hlen, hstep]
    exact ih _ rfl rfl ⟨st', rfl⟩

/-! ### Scheduler invariants shared by C3, C4 and C9 -/

/-- Dispatching does not change the static actions of the plan. -/
theorem updateAct_map_fst (acts : List (SAction × ActionState)) (id : String)
    (f : ActionState → ActionState) :
    (updateAct acts id f).map Prod.fst = acts.map Prod.fst := by
  unfold updateAct
  rw [List.map_map]
  refine List.map_congr_left ?_
  intro p _
  by_cases h : p.1.id = id <;> simp [h]

/-- Helper to name the execution result inside `dispatchOne`. -/
def dispatchResult (env : String → Nat → Nat → AttemptOutcome) (maxR : Nat)
    (a : SAction) (s : SchedState) : ExecResult :=
  executeAction (env a.id (dispatchCount s.trace a.id)) maxR
    (currentOutput s.acts a.id)

theorem dispatchOne_inProgress (env : String → Nat → Nat → AttemptOutcome)
    (maxR : Nat) (a : SAction) (s : SchedState) (h : s.inProgress = []) :
    (dispatchOne env maxR a s).inProgress = [] := by
  rcases hrv : (dispatchResult env maxR a s).retval with e | v <;>
    simp [dispatchOne, dispatchResult, hrv, h] at hrv ⊢ <;>
    simp [dispatchOne, h, hrv]

theorem dispatchOne_acts_fst (env : String → Nat → Nat → AttemptOutcome)
    (maxR : Nat) (a : SAction) (s : SchedState) :
    (dispatchOne env maxR a s).acts.map Prod.fst = s.acts.map Prod.fst := by
  rcases hrv : (dispatchResult env maxR a s).retval with e | v <;>
    · unfold dispatchResult at hrv
      simp [dispatchOne, hrv, updateAct_map_fst]

theorem dispatchOne_completed_sub (env : String → Nat → Nat → AttemptOutcome)
    (maxR : Nat) (a : SAction) (s : SchedState) :
    s.completed ⊆ (dispatchOne env maxR a s).completed := by
  rcases hrv : (dispatchResult env maxR a s).retval with e | v <;>
    · unfold dispatchResult at hrv
      simp [dispatchOne, hrv]
      try exact List.subset_append_left _ _

theorem dispatchOne_trace (env : String → Nat → Nat → AttemptOutcome)
    (maxR : Nat) (a : SAction) (s : SchedState) :
    (dispatchOne env maxR a s).trace
      = s.trace ++
          (TraceEv.dispatch a.id a.dependencies (s.inProgress.length + 1)
              s.completed ::
            (dispatchResult env maxR a s).statusTrace.map
              (fun st => TraceEv.setStatus a.id st)) := by
  rcases hrv : (dispatchResult env maxR a s).retval with e | v <;>
    · unfold dispatchResult at hrv
      simp [dispatchOne, hrv, dispatchResult]

theorem dispatchIds_append (t u : List TraceEv) :
    dispatchIds (t ++ u) = dispatchIds t ++ dispatchIds u :=
  List.filterMap_append t u _

theorem dispatchIds_setStatus_map (id : String) (l : List Status) :
    dispatchIds (l.map fun st => TraceEv.setStatus id st) = [] := by
  induction l with
  | nil => rfl
  | cons st rest ih =>
    simp only [List.map_cons, dispatchIds, List.filterMap_cons] at ih ⊢
    exact ih

/-- Ids dispatched by `dispatchOne`: exactly one new dispatch event. -/
theorem dispatchOne_dispatchIds (env : String → Nat → Nat → AttemptOutcome)
    (maxR : Nat) (a : SAction) (s : SchedState) :
    dispatchIds (dispatchOne env maxR a s).trace
      = dispatchIds s.trace ++ [a.id] := by
  rw [dispatchOne_trace]
  rw [show TraceEv.dispatch a.id a.dependencies (s.inProgress.length + 1)
        s.completed ::
        (dispatchResult env maxR a s).statusTrace.map
          (fun st => TraceEv.setStatus a.id st)
      = [TraceEv.dispatch a.id a.dependencies (s.inProgress.length + 1)
          s.completed] ++
        (dispatchResult env maxR a s).statusTrace.map
          (fun st => TraceEv.setStatus a.id st) from rfl]
  rw [dispatchIds_append, dispatchIds_append, dispatchIds_setStatus_map]
  simp [dispatchIds]

/-! ### Claim C3 -/

/-- Every `dispatch` event of the trace was admitted while it was the only
action in flight. -/
def oneInFlight (tr : List TraceEv) : Prop :=
  ∀ id deps k c, TraceEv.dispatch id deps k c ∈ tr → k = 1

theorem dispatchOne_oneInFlight (env : String → Nat → Nat → AttemptOutcome)
    (maxR : Nat) (a : SAction) (s : SchedState) (h1 : s.inProgress = [])
    (h2 : oneInFlight s.trace) :
    oneInFlight (dispatchOne env maxR a s).trace := by
  intro id deps k c hmem
  rw [dispatchOne_trace] at hmem
  rcases List.mem_append.mp hmem with h | h
  · exact h2 _ _ _ _ h
  · rcases List.mem_cons.mp h with heq | hmem'
    · have := (TraceEv.dispatch.injEq _ _ _ _ _ _ _ _).mp heq
      rw [this.2.2.1, h1]
      rfl
    · obtain ⟨st, _, habs⟩ := List.mem_map.mp hmem'
      exact absurd habs (by simp)

theorem runBatch_oneInFlight (env : String → Nat → Nat → AttemptOutcome)
    (maxR conc : Nat) :
    ∀ (batch : List SAction) (s : SchedState), s.inProgress = [] →
      oneInFlight s.trace →
      oneInFlight (runBatch env maxR conc batch s).trace ∧
        (runBatch env maxR conc batch s).inProgress = [] := by
  intro batch
  induction batch with
  | nil => intro s h1 h2; exact ⟨h2, h1⟩
  | cons a rest ih =>
    intro s h1 h2
    simp only [runBatch]
    by_cases hc : s.inProgress.length < conc
    · rw [if_pos hc]
      exact ih _ (dispatchOne_inProgress env maxR a s h1)
        (dispatchOne_oneInFlight env maxR a s h1 h2)
    · rw [if_neg hc]
      exact ⟨h2, h1⟩

theorem schedStep_oneInFlight (env : String → Nat → Nat → AttemptOutcome)
    (maxR conc : Nat) (s s' : SchedState) (h1 : s.inProgress = [])
    (h2 : oneInFlight s.trace) (h : schedStep env maxR conc s = some s') :
    oneInFlight s'.trace ∧ s'.inProgress = [] := by
  unfold schedStep at h
  cases he : (availableOf s).isEmpty with
  | true => simp [he, h1] at h
  | false =>
    simp only [he, Bool.false_eq_true, if_false, Option.some.injEq] at h
    rw [← h]
    exact runBatch_oneInFlight env maxR conc (availableOf s) s h1 h2

theorem runSched_oneInFlight (env : String → Nat → Nat → AttemptOutcome)
    (maxR conc : Nat) :
    ∀ (fuel : Nat) (s : SchedState), s.inProgress = [] →
      oneInFlight s.trace →
      oneInFlight (runSched env maxR conc fuel s).1.trace := by
  intro fuel
  induction fuel with
  | zero => intro s _ h2; exact h2
  | succ fuel ih =>
    intro s h1 h2
    rw [runSched]
    by_cases hlen : s.completed.length < s.acts.length
    · rw [if_pos hlen]
      cases hstep : schedStep env maxR conc s with
      | none => exact h2
      | some s' =>
        have := schedStep_oneInFlight env maxR conc s s' h1 h2 hstep
        exact ih s' this.2 this.1
    · rw [if_neg hlen]
      exact h2

theorem runBatch_dispatchIds (env : String → Nat → Nat → AttemptOutcome)
    (maxR conc : Nat) (hconc : 1 ≤ conc) :
    ∀ (batch : List SAction) (s : SchedState), s.inProgress = [] →
      dispatchIds (runBatch env maxR conc batch s).trace
        = dispatchIds s.trace ++ batch.map SAction.id := by
  intro batch
  induction batch with
  | nil => intro s _; simp [runBatch]
  | cons a rest ih =>
    intro s h1
    simp only [runBatch]
    rw [if_pos (by rw [h1]; simpa using hconc)]
    rw [ih _ (dispatchOne_inProgress env maxR a s h1),
      dispatchOne_dispatchIds]
    simp

/-- C3: the scheduler awaits each dispatched execution before admitting the
next ready action, so at most one action is ever in flight — every `dispatch`
event of any run from the initial state records `len(in_progress) = 1`
regardless of the `CONCURRENT_ACTIONS` valve — and, whenever the admission
loop runs a batch (from any state with nothing in flight and a positive
concurrency valve), the ready actions are dispatched exactly in declaration
order: the newly dispatched ids are the `available` list's ids, which are a
subsequence of the plan's declared action order. -/
theorem claim_C3 (env : String → Nat → Nat → AttemptOutcome)
    (maxR conc fuel : Nat) (acts : List SAction) (s : SchedState)
    (hconc : 1 ≤ conc) (hs : s.inProgress = []) :
    (∀ id deps k c,
      TraceEv.dispatch id deps k c
          ∈ (runSched env maxR conc fuel (initState acts)).1.trace →
      k = 1) ∧
    dispatchIds (runBatch env maxR conc (availableOf s) s).trace
        = dispatchIds s.trace ++ (availableOf s).map SAction.id ∧
    List.Sublist ((availableOf s).map SAction.id)
        (s.acts.map (fun p => p.1.id)) := by
  refine ⟨?_, runBatch_dispatchIds env maxR conc hconc (availableOf s) s hs,
    ?_⟩
  · intro id deps k c hmem
    exact runSched_oneInFlight env maxR conc fuel (initState acts) rfl
      (by intro _ _ _ _ h; exact absurd h (List.not_mem_nil _)) _ _ _ _ hmem
  · have : (availableOf s).map SAction.id
        = (s.acts.filter fun p =>
            !(s.completed.contains p.1.id) && !(s.inProgress.contains p.1.id)
              && canExecute s.completed p.1).map (fun p => p.1.id) := by
      unfold availableOf
      rw [List.map_map]
      rfl
    rw [this]
    exact List.Sublist.map _ (List.filter_sublist _)

/-- Witness for C3: a two-action chain run with concurrency 2 — the one
dispatch event of the first batch has `in_progress` size 1 and the batch
dispatches exactly the available action "a". -/
theorem claim_C3_witness :
    dispatchIds (runBatch envC5 0 2
        (availableOf (initState [⟨"b", []⟩])) (initState [⟨"b", []⟩])).trace
      = dispatchIds (initState [⟨"b", []⟩]).trace
          ++ (availableOf (initState [⟨"b", []⟩])).map SAction.id ∧
    List.Sublist ((availableOf (initState [⟨"b", []⟩])).map SAction.id)
        ((initState [⟨"b", []⟩]).acts.map (fun p => p.1.id)) :=
  ⟨(claim_C3 envC5 0 2 1 [⟨"b", []⟩] (initState [⟨"b", []⟩]) (by omega)
      rfl).2.1,
   (claim_C3 envC5 0 2 1 [⟨"b", []⟩] (initState [⟨"b", []⟩]) (by omega)
      rfl).2.2⟩

/-! ### Claim C4 -/

/-- Every `dispatch` event in the trace was admitted with all of the action's
dependencies already in the completed set as recorded at that moment, and
that recorded set is contained in the current completed set. -/
def dispatchSound (s : SchedState) : Prop :=
  ∀ id deps k c, TraceEv.dispatch id deps k c ∈ s.trace →
    (∀ d ∈ deps, d ∈ c) ∧ ∀ x ∈ c, x ∈ s.completed

theorem dispatchOne_sound (env : String → Nat → Nat → AttemptOutcome)
    (maxR : Nat) (a : SAction) (s : SchedState) (hs : dispatchSound s)
    (hdeps : ∀ d ∈ a.dependencies, d ∈ s.completed) :
    dispatchSound (dispatchOne env maxR a s) := by
  intro id deps k c hmem
  have hsub := dispatchOne_completed_sub env maxR a s
  rw [dispatchOne_trace] at hmem
  rcases List.mem_append.mp hmem with h | h
  · obtain ⟨h1, h2⟩ := hs _ _ _ _ h
    exact ⟨h1, fun x hx => hsub (h2 x hx)⟩
  · rcases List.mem_cons.mp h with heq | hmem'
    · obtain ⟨_, hdeps', _, hc⟩ := (TraceEv.dispatch.injEq _ _ _ _ _ _ _ _).mp heq
      subst hdeps'; subst hc
      exact ⟨hdeps, fun x hx => hsub hx⟩
    · obtain ⟨st, _, habs⟩ := List.mem_map.mp hmem'
      exact absurd habs (by simp)

theorem runBatch_sound (env : String → Nat → Nat → AttemptOutcome)
    (maxR conc : Nat) :
    ∀ (batch : List SAction) (s : SchedState), dispatchSound s →
      (∀ a ∈ batch, ∀ d ∈ a.dependencies, d ∈ s.completed) →
      dispatchSound (runBatch env maxR conc batch s) ∧
        s.completed ⊆ (runBatch env maxR conc batch s).completed := by
  intro batch
  induction batch with
  | nil => intro s h1 _; exact ⟨h1, fun x hx => hx⟩
  | cons a rest ih =>
    intro s h1 h2
    simp only [runBatch]
    by_cases hc : s.inProgress.length < conc
    · rw [if_pos hc]
      have hsub := dispatchOne_completed_sub env maxR a s
      have h := ih (dispatchOne env maxR a s)
        (dispatchOne_sound env maxR a s h1
          (h2 a (List.mem_cons_self a rest)))
        (fun b hb d hd => hsub (h2 b (List.mem_cons_of_mem a hb) d hd))
      exact ⟨h.1, fun x hx => h.2 (hsub hx)⟩
    · rw [if_neg hc]
      exact ⟨h1, fun x hx => hx⟩

/-- Elements of `available` have all dependencies completed. -/
theorem availableOf_deps (s : SchedState) (a : SAction)
    (ha : a ∈ availableOf s) : ∀ d ∈ a.dependencies, d ∈ s.completed := by
  unfold availableOf at ha
  obtain ⟨p, hp, hpa⟩ := List.mem_map.mp ha
  obtain ⟨-, hcond⟩ := List.mem_filter.mp hp
  intro d hd
  have hcan : canExecute s.completed p.1 = true := by
    simp only [Bool.and_eq_true] at hcond
    exact hcond.2
  rw [hpa] at hcan
  unfold canExecute at hcan
  rw [List.all_eq_true] at hcan
  have := hcan d hd
  simpa using this

theorem schedStep_sound (env : String → Nat → Nat → AttemptOutcome)
    (maxR conc : Nat) (s s' : SchedState) (h1 : dispatchSound s)
    (h : schedStep env maxR conc s = some s') :
    dispatchSound s' ∧ s.completed ⊆ s'.completed := by
  unfold schedStep at h
  split at h
  · split at h
    · exact Option.noConfusion h
    · obtain rfl : s = s' := Option.some.inj h
      exact ⟨h1, fun x hx => hx⟩
  · obtain rfl : runBatch env maxR conc (availableOf s) s = s' :=
      Option.some.inj h
    exact runBatch_sound env maxR conc (availableOf s) s h1
      (fun a ha => availableOf_deps s a ha)

theorem runSched_sound (env : String → Nat → Nat → AttemptOutcome)
    (maxR conc : Nat) :
    ∀ (fuel : Nat) (s : SchedState), dispatchSound s →
      dispatchSound (runSched env maxR conc fuel s).1 := by
  intro fuel
  induction fuel with
  | zero => intro s h1; exact h1
  | succ fuel ih =>
    intro s h1
    rw [runSched]
    by_cases hlen : s.completed.length < s.acts.length
    · rw [if_pos hlen]
      cases hstep : schedStep env maxR conc s with
      | none => exact h1
      | some s' => exact ih s' (schedStep_sound env maxR conc s s' h1 hstep).1
    · rw [if_neg hlen]
      exact h1

/-- C4: an action is dispatched to the executor only after every element of
its declared dependencies list is in the completed set (the completed set
recorded in its dispatch event contains its dependencies and only ids that
stay completed); consequently, an action with a dependency id that never
enters the completed set of the run is never dispatched. -/
theorem claim_C4 (env : String → Nat → Nat → AttemptOutcome)
    (maxR conc fuel : Nat) (acts : List SAction) (id : String)
    (deps : List String) (k : Nat) (c : List String)
    (hmem : TraceEv.dispatch id deps k c
      ∈ (runSched env maxR conc fuel (initState acts)).1.trace) :
    (∀ d ∈ deps, d ∈ c) ∧
    ∀ d ∈ deps,
      d ∈ (runSched env maxR conc fuel (initState acts)).1.completed := by
  have h := runSched_sound env maxR conc fuel (initState acts)
    (by intro _ _ _ _ h; exact absurd h (List.not_mem_nil _)) _ _ _ _ hmem
  exact ⟨h.1, fun d hd => h.2 d (h.1 d hd)⟩

/-- Witness for C4: in the two-action chain "a" ← "b", "b" is dispatched in
the second iteration with `completed = ["a"]`, and its dependency "a" is in
the final completed set. -/
theorem claim_C4_witness :
    "a" ∈ (runSched (fun _ _ _ => .evalOk "x" "yes") 0 2 2
        (initState [⟨"a", []⟩, ⟨"b", ["a"]⟩])).1.completed :=
  (claim_C4 (fun _ _ _ => .evalOk "x" "yes") 0 2 2 [⟨"a", []⟩, ⟨"b", ["a"]⟩]
      "b" ["a"] 1 ["a"] (by decide)).2 "a" (by decide)

/-! ### Claim C9 -/

/-- A generation client that never fails and whose evaluator approves on the
first try, for every action and every dispatch. -/
def goodEnv (env : String → Nat → Nat → AttemptOutcome) : Prop :=
  ∀ id d, ∃ out reply,
    env id d 0 = .evalOk out reply ∧ isRejected reply = false

/-- Dispatching one action under a first-try-approving client: the action is
completed and added to `completed`, one generation and one evaluation call
are made. -/
theorem dispatchOne_good (env : String → Nat → Nat → AttemptOutcome)
    (maxR : Nat) (a : SAction) (s : SchedState) (out reply : String)
    (ho : env a.id (dispatchCount s.trace a.id) 0 = .evalOk out reply)
    (hr : isRejected reply = false) :
    (dispatchOne env maxR a s).completed = s.completed ++ [a.id] ∧
    (dispatchOne env maxR a s).genCalls = s.genCalls + 1 ∧
    (dispatchOne env maxR a s).evalCalls = s.evalCalls + 1 ∧
    (dispatchOne env maxR a s).acts
      = updateAct s.acts a.id
          (fun _ => ⟨.completed, some out, true, true⟩) := by
  have hexec := executeAction_accepted (env a.id (dispatchCount s.trace a.id))
    maxR (currentOutput s.acts a.id) out reply ho hr
  refine ⟨?_, ?_, ?_, ?_⟩ <;> simp [dispatchOne, hexec]

/-- Invariant of a run whose client always succeeds with first-try approval:
nothing is in flight between dispatches, the completed set is a duplicate-free
subset of the plan's ids, an action's status is `completed` exactly when its
id is completed (`pending` otherwise), every completed action was dispatched
exactly once and no other action was ever dispatched, and the call counters
equal the completed count. -/
structure C9Inv (acts : List SAction) (s : SchedState) : Prop where
  actsEq : s.acts.map Prod.fst = acts
  inP : s.inProgress = []
  compNodup : s.completed.Nodup
  compSub : ∀ x ∈ s.completed, x ∈ acts.map SAction.id
  statusEq : ∀ p ∈ s.acts,
    p.2.status = (if p.1.id ∈ s.completed then Status.completed else .pending)
  dispEq : ∀ p ∈ s.acts,
    dispatchCount s.trace p.1.id = (if p.1.id ∈ s.completed then 1 else 0)
  genEq : s.genCalls = s.completed.length
  evalEq : s.evalCalls = s.completed.length

theorem C9Inv_dispatchOne (acts : List SAction)
    (env : String → Nat → Nat → AttemptOutcome) (maxR : Nat) (a : SAction)
    (s : SchedState) (hgood : goodEnv env) (hinv : C9Inv acts s)
    (hmem : a ∈ acts) (hnc : a.id ∉ s.completed) :
    C9Inv acts (dispatchOne env maxR a s) ∧
    (dispatchOne env maxR a s).completed = s.completed ++ [a.id] := by
  obtain ⟨out, reply, ho, hr⟩ := hgood a.id (dispatchCount s.trace a.id)
  obtain ⟨hcomp, hgen, heval, hacts⟩ :=
    dispatchOne_good env maxR a s out reply ho hr
  have hids := dispatchOne_dispatchIds env maxR a s
  have hcount : ∀ x, dispatchCount (dispatchOne env maxR a s).trace x
      = dispatchCount s.trace x + (if x = a.id then 1 else 0) := by
    intro x
    unfold dispatchCount
    rw [hids, List.count_append]
    congr 1
    by_cases h : x = a.id
    · simp [List.count_singleton, h]
    · simp [List.count_singleton, h, Ne.symm h]
  refine ⟨⟨?_, ?_, ?_, ?_, ?_, ?_, ?_, ?_⟩, hcomp⟩
  · rw [dispatchOne_acts_fst]; exact hinv.actsEq
  · exact dispatchOne_inProgress env maxR a s hinv.inP
  · rw [hcomp]; simp [List.nodup_append, hinv.compNodup, hnc]
  · rw [hcomp]
    intro x hx
    rcases List.mem_append.mp hx with h | h
    · exact hinv.compSub x h
    · rw [List.mem_singleton.mp h]
      exact List.mem_map_of_mem SAction.id hmem
  · rw [hacts, hcomp]
    intro p hp
    obtain ⟨q, hq, hqp⟩ := List.mem_map.mp hp
    by_cases hid : q.1.id = a.id
    · rw [if_pos hid] at hqp
      rw [← hqp]
      simp [hid]
    · rw [if_neg hid] at hqp
      subst hqp
      rw [hinv.statusEq q hq]
      simp [hid]
  · rw [hacts, hcomp]
    intro p hp
    obtain ⟨q, hq, hqp⟩ := List.mem_map.mp hp
    by_cases hid : q.1.id = a.id
    · rw [if_pos hid] at hqp
      rw [← hqp]
      have h0 : dispatchCount s.trace a.id = 0 := by
        rw [← hid, hinv.dispEq q hq, if_neg]
        rw [hid]; exact hnc
      simp [hcount, hid, h0]
    · rw [if_neg hid] at hqp
      subst hqp
      rw [hcount, hinv.dispEq q hq]
      simp [hid]
  · rw [hgen, hcomp, hinv.genEq]; simp
  · rw [heval, hcomp, hinv.evalEq]; simp

theorem C9Inv_runBatch (acts : List SAction)
    (env : String → Nat → Nat → AttemptOutcome) (maxR conc : Nat)
    (hgood : goodEnv env) (hconc : 1 ≤ conc) :
    ∀ (batch : List SAction) (s : SchedState), C9Inv acts s →
      (batch.map SAction.id).Nodup →
      (∀ a ∈ batch, a ∈ acts ∧ a.id ∉ s.completed) →
      C9Inv acts (runBatch env maxR conc batch s) ∧
      (runBatch env maxR conc batch s).completed
        = s.completed ++ batch.map SAction.id := by
  intro batch
  induction batch with
  | nil => intro s hinv _ _; exact ⟨hinv, by simp [runBatch]⟩
  | cons a rest ih =>
    intro s hinv hnodup hprem
    simp only [runBatch]
    rw [if_pos (by rw [hinv.inP]; simpa using hconc)]
    obtain ⟨hinv', hcomp'⟩ := C9Inv_dispatchOne acts env maxR a s hgood hinv
      (hprem a (List.mem_cons_self a rest)).1
      (hprem a (List.mem_cons_self a rest)).2
    have hnodup' : (rest.map SAction.id).Nodup :=
      (List.nodup_cons.mp (by simpa using hnodup)).2
    have hprem' : ∀ b ∈ rest, b ∈ acts ∧
        b.id ∉ (dispatchOne env maxR a s).completed := by
      intro b hb
      refine ⟨(hprem b (List.mem_cons_of_mem a hb)).1, ?_⟩
      rw [hcomp']
      intro hmem
      rcases List.mem_append.mp hmem with h | h
      · exact (hprem b (List.mem_cons_of_mem a hb)).2 h
      · have hba : b.id = a.id := List.mem_singleton.mp h
        have : a.id ∉ rest.map SAction.id :=
          (List.nodup_cons.mp (by simpa using hnodup)).1
        exact this (hba ▸ List.mem_map_of_mem SAction.id hb)
    obtain ⟨hinv'', hcomp''⟩ := ih (dispatchOne env maxR a s) hinv' hnodup'
      hprem'
    refine ⟨hinv'', ?_⟩
    rw [hcomp'', hcomp']
    simp

theorem availableOf_mem (s : SchedState) (a : SAction)
    (ha : a ∈ availableOf s) :
    a ∈ s.acts.map Prod.fst ∧ a.id ∉ s.completed := by
  unfold availableOf at ha
  obtain ⟨p, hp, hpa⟩ := List.mem_map.mp ha
  obtain ⟨hpmem, hcond⟩ := List.mem_filter.mp hp
  simp only [Bool.and_eq_true, Bool.not_eq_true'] at hcond
  constructor
  · exact hpa ▸ List.mem_map_of_mem Prod.fst hpmem
  · intro hmem
    rw [← hpa] at hmem
    have hc : s.completed.contains p.1.id = true := List.elem_iff.mpr hmem
    rw [hcond.1.1] at hc
    exact Bool.noConfusion hc

theorem availableOf_nodup (s : SchedState) (acts : List SAction)
    (hacts : s.acts.map Prod.fst = acts)
    (hnodup : (acts.map SAction.id).Nodup) :
    ((availableOf s).map SAction.id).Nodup := by
  have h : (availableOf s).map SAction.id
      = (s.acts.filter fun p =>
          !(s.completed.contains p.1.id) && !(s.inProgress.contains p.1.id)
            && canExecute s.completed p.1).map (fun p => p.1.id) := by
    unfold availableOf
    rw [List.map_map]
    rfl
  rw [h]
  have hsub : List.Sublist
      ((s.acts.filter fun p =>
          !(s.completed.contains p.1.id) && !(s.inProgress.contains p.1.id)
            && canExecute s.completed p.1).map (fun p => p.1.id))
      (s.acts.map (fun p => p.1.id)) :=
    List.Sublist.map _ (List.filter_sublist _)
  refine List.Nodup.sublist hsub ?_
  have : s.acts.map (fun p => p.1.id) = acts.map SAction.id := by
    rw [← hacts, List.map_map]
    rfl
  rw [this]
  exact hnodup

/-- Every nonempty list has an element of minimal image under `f`. -/
theorem exists_min_image (f : String → Nat) :
    ∀ (l : List SAction), l ≠ [] → ∃ m ∈ l, ∀ b ∈ l, f m.id ≤ f b.id := by
  intro l
  induction l with
  | nil => intro h; exact absurd rfl h
  | cons a rest ih =>
    intro _
    cases rest with
    | nil =>
      refine ⟨a, List.mem_cons_self a [], ?_⟩
      intro b hb
      rw [List.mem_singleton.mp hb]
    | cons c cs =>
      obtain ⟨m, hm, hmin⟩ := ih (by simp)
      by_cases h : f a.id ≤ f m.id
      · refine ⟨a, List.mem_cons_self _ _, ?_⟩
        intro b hb
        rcases List.mem_cons.mp hb with rfl | hb
        · exact Nat.le_refl _
        · exact Nat.le_trans h (hmin b hb)
      · refine ⟨m, List.mem_cons_of_mem a hm, ?_⟩
        intro b hb
        rcases List.mem_cons.mp hb with rfl | hb
        · exact Nat.le_of_lt (Nat.lt_of_not_le h)
        · exact hmin b hb

/-- Progress: while some action is incomplete, a rank function certifying the
dependency DAG acyclic (and dependency ids present in the plan) yields a
ready action, so `available` is nonempty. -/
theorem C9_progress (acts : List SAction) (rank : String → Nat)
    (s : SchedState) (hinv : C9Inv acts s)
    (hnodup : (acts.map SAction.id).Nodup)
    (hrank : ∀ a ∈ acts, ∀ d ∈ a.dependencies, rank d < rank a.id)
    (hclosed : ∀ a ∈ acts, ∀ d ∈ a.dependencies, d ∈ acts.map SAction.id)
    (hlen : s.completed.length < acts.length) :
    availableOf s ≠ [] := by
  have hLne : acts.filter (fun a => !(s.completed.contains a.id)) ≠ [] := by
    intro hnil
    have hall : ∀ a ∈ acts, a.id ∈ s.completed := by
      intro a ha
      by_contra hna
      have : a ∈ acts.filter (fun a => !(s.completed.contains a.id)) :=
        List.mem_filter.mpr ⟨ha, by simpa using hna⟩
      rw [hnil] at this
      exact List.not_mem_nil a this
    have hsub : ∀ x ∈ acts.map SAction.id, x ∈ s.completed := by
      intro x hx
      obtain ⟨a, ha, rfl⟩ := List.mem_map.mp hx
      exact hall a ha
    have hle := (List.subperm_of_subset hnodup hsub).length_le
    rw [List.length_map] at hle
    omega
  obtain ⟨m, hmL, hmin⟩ :=
    exists_min_image rank (acts.filter (fun a => !(s.completed.contains a.id)))
      hLne
  have hmacts : m ∈ acts := (List.mem_filter.mp hmL).1
  have hmnc : m.id ∉ s.completed := by
    have hcond := (List.mem_filter.mp hmL).2
    simpa using hcond
  have hdeps : ∀ d ∈ m.dependencies, d ∈ s.completed := by
    intro d hd
    by_contra hnd
    obtain ⟨b, hb, hbd⟩ := List.mem_map.mp (hclosed m hmacts d hd)
    have hbL : b ∈ acts.filter (fun a => !(s.completed.contains a.id)) :=
      List.mem_filter.mpr ⟨hb, by simp; rw [hbd]; exact hnd⟩
    have h1 := hmin b hbL
    have h2 := hrank m hmacts d hd
    rw [hbd] at h1
    omega
  intro hempty
  obtain ⟨p, hp, hpm⟩ :=
    List.mem_map.mp (show m ∈ s.acts.map Prod.fst from hinv.actsEq ▸ hmacts)
  have hc1 : s.completed.contains m.id = false := by
    cases hc : s.completed.contains m.id
    · rfl
    · exact absurd (List.elem_iff.mp hc) hmnc
  have hc2 : s.inProgress.contains m.id = false := by
    rw [hinv.inP]; rfl
  have hc3 : canExecute s.completed m = true := by
    unfold canExecute
    rw [List.all_eq_true]
    intro d hd
    simpa using List.elem_iff.mpr (hdeps d hd)
  have hpf : p ∈ s.acts.filter fun q =>
      !(s.completed.contains q.1.id) && !(s.inProgress.contains q.1.id) &&
        canExecute s.completed q.1 :=
    List.mem_filter.mpr ⟨hp, by
      show (!(s.completed.contains p.1.id) && !(s.inProgress.contains p.1.id)
        && canExecute s.completed p.1) = true
      rw [hpm, hc1, hc2, hc3]
      rfl⟩
  have : m ∈ availableOf s := by
    unfold availableOf
    rw [← hpm]
    exact List.mem_map_of_mem Prod.fst hpf
  rw [hempty] at this
  exact List.not_mem_nil m this

/-- Bounded-fuel termination and completion of the scheduler under a
first-try-approving client on a well-formed DAG. -/
theorem C9_run (acts : List SAction) (rank : String → Nat)
    (env : String → Nat → Nat → AttemptOutcome) (maxR conc : Nat)
    (hgood : goodEnv env) (hconc : 1 ≤ conc)
    (hnodup : (acts.map SAction.id).Nodup)
    (hrank : ∀ a ∈ acts, ∀ d ∈ a.dependencies, rank d < rank a.id)
    (hclosed : ∀ a ∈ acts, ∀ d ∈ a.dependencies, d ∈ acts.map SAction.id) :
    ∀ (fuel : Nat) (s : SchedState), C9Inv acts s →
      acts.length - s.completed.length < fuel →
      (runSched env maxR conc fuel s).2 = true ∧
      C9Inv acts (runSched env maxR conc fuel s).1 ∧
      (runSched env maxR conc fuel s).1.completed.length = acts.length := by
  intro fuel
  induction fuel with
  | zero => intro s _ h; omega
  | succ fuel ih =>
    intro s hinv hfuel
    have hsacts : s.acts.length = acts.length := by
      have h := congrArg List.length hinv.actsEq
      rw [List.length_map] at h
      exact h
    have hle : s.completed.length ≤ acts.length := by
      have h := (List.subperm_of_subset hinv.compNodup
        (fun x hx => hinv.compSub x hx)).length_le
      rw [List.length_map] at h
      exact h
    rw [runSched]
    by_cases hlen : s.completed.length < s.acts.length
    · rw [if_pos hlen]
      have hlen' : s.completed.length < acts.length := by omega
      have hne : availableOf s ≠ [] :=
        C9_progress acts rank s hinv hnodup hrank hclosed hlen'
      have hstep : schedStep env maxR conc s
          = some (runBatch env maxR conc (availableOf s) s) := by
        unfold schedStep
        rw [if_neg (by simpa using hne)]
      rw [hstep]
      have hbnodup := availableOf_nodup s acts hinv.actsEq hnodup
      have hbmem : ∀ a ∈ availableOf s, a ∈ acts ∧ a.id ∉ s.completed := by
        intro a ha
        have h := availableOf_mem s a ha
        exact ⟨hinv.actsEq ▸ h.1, h.2⟩
      obtain ⟨hinv', hcomp'⟩ := C9Inv_runBatch acts env maxR conc hgood hconc
        (availableOf s) s hinv hbnodup hbmem
      have hpos : 0 < (availableOf s).length := List.length_pos.mpr hne
      have hgrow : s.completed.length + 1
          ≤ (runBatch env maxR conc (availableOf s) s).completed.length := by
        rw [hcomp', List.length_append, List.length_map]
        omega
      exact ih (runBatch env maxR conc (availableOf s) s) hinv' (by omega)
    · rw [if_neg hlen]
      exact ⟨rfl, hinv, by show s.completed.length = acts.length; omega⟩

/-- C9: if the generation client never fails and the evaluator approves on the
first try, then (a) one call of `execute_action` makes exactly one generation
call and one evaluation call, completes the action and returns its output,
and (b) for a plan whose ids are distinct, whose dependency graph is acyclic
(certified by a rank function) with all dependency ids present, the whole
scheduler run terminates with every action's status `completed`, every action
dispatched exactly once, and total generation and evaluation call counts equal
to the number of actions. -/
theorem claim_C9 (acts : List SAction) (rank : String → Nat)
    (env : String → Nat → Nat → AttemptOutcome) (maxR conc : Nat)
    (hnodup : (acts.map SAction.id).Nodup)
    (hrank : ∀ a ∈ acts, ∀ d ∈ a.dependencies, rank d < rank a.id)
    (hclosed : ∀ a ∈ acts, ∀ d ∈ a.dependencies, d ∈ acts.map SAction.id)
    (hgood : goodEnv env) (hconc : 1 ≤ conc) :
    (∀ (envA : Nat → AttemptOutcome) (out reply : String) (maxRA : Nat)
       (cur : Option String),
       envA 0 = .evalOk out reply → isRejected reply = false →
       (executeAction envA maxRA cur).genCalls = 1 ∧
       (executeAction envA maxRA cur).evalCalls = 1 ∧
       (executeAction envA maxRA cur).status = .completed ∧
       (executeAction envA maxRA cur).retval = .ok (some out)) ∧
    (runSched env maxR conc (acts.length + 1) (initState acts)).2 = true ∧
    (∀ p ∈ (runSched env maxR conc (acts.length + 1) (initState acts)).1.acts,
       p.2.status = .completed) ∧
    (runSched env maxR conc (acts.length + 1) (initState acts)).1.genCalls
        = acts.length ∧
    (runSched env maxR conc (acts.length + 1) (initState acts)).1.evalCalls
        = acts.length ∧
    ∀ a ∈ acts, dispatchCount
        (runSched env maxR conc (acts.length + 1) (initState acts)).1.trace
        a.id = 1 := by
  have hinv0 : C9Inv acts (initState acts) := by
    refine ⟨?_, rfl, List.nodup_nil, ?_, ?_, ?_, rfl, rfl⟩
    · unfold initState
      rw [List.map_map,
        show (Prod.fst ∘ fun a : SAction => (a, initActionState)) = id from
          rfl]
      exact List.map_id acts
    · intro x hx; exact absurd hx (List.not_mem_nil x)
    · intro p hp
      obtain ⟨a, _, rfl⟩ := List.mem_map.mp hp
      simp [initState, initActionState]
    · intro p _
      rw [show (initState acts).completed = [] from rfl,
        show (initState acts).trace = [] from rfl]
      simp [dispatchCount, dispatchIds]
  have hfuel : acts.length - (initState acts).completed.length
      < acts.length + 1 := by
    have h : (initState acts).completed = [] := rfl
    rw [h]
    simp only [List.length_nil, Nat.sub_zero]
    omega
  obtain ⟨hterm, hinvf, hlenf⟩ := C9_run acts rank env maxR conc hgood hconc
    hnodup hrank hclosed (acts.length + 1) (initState acts) hinv0 hfuel
  have hall : ∀ x ∈ acts.map SAction.id,
      x ∈ (runSched env maxR conc (acts.length + 1)
        (initState acts)).1.completed := by
    have hsp := List.subperm_of_subset hinvf.compNodup
      (fun x hx => hinvf.compSub x hx)
    have hp := hsp.perm_of_length_le
      (by rw [List.length_map, hlenf])
    intro x hx
    exact hp.mem_iff.mpr hx
  refine ⟨?_, hterm, ?_, ?_, ?_, ?_⟩
  · intro envA out reply maxRA cur ho hr
    rw [executeAction_accepted envA maxRA cur out reply ho hr]
    exact ⟨rfl, rfl, rfl, rfl⟩
  · intro p hp
    have hmem : p.1 ∈ acts := by
      rw [← hinvf.actsEq]
      exact List.mem_map_of_mem Prod.fst hp
    have hid := hall _ (List.mem_map_of_mem SAction.id hmem)
    rw [hinvf.statusEq p hp, if_pos hid]
  · rw [hinvf.genEq, hlenf]
  · rw [hinvf.evalEq, hlenf]
  · intro a ha
    obtain ⟨p, hp, hpa⟩ := List.mem_map.mp
      (show a ∈ (runSched env maxR conc (acts.length + 1)
          (initState acts)).1.acts.map Prod.fst by
        rw [hinvf.actsEq]; exact ha)
    have hid : p.1.id ∈ (runSched env maxR conc (acts.length + 1)
        (initState acts)).1.completed := by
      rw [hpa]
      exact hall _ (List.mem_map_of_mem SAction.id ha)
    have h := hinvf.dispEq p hp
    rw [if_pos hid] at h
    rw [← hpa]
    exact h

/-- Witness for C9: the two-action chain "a" ← "b" under a constant
approve-first-try client completes with two total generation calls and one
dispatch of "b". -/
theorem claim_C9_witness :
    (runSched (fun _ _ _ => AttemptOutcome.evalOk "x" "yes") 0 2
        ([⟨"a", []⟩, ⟨"b", ["a"]⟩] : List SAction).length.succ
        (initState [⟨"a", []⟩, ⟨"b", ["a"]⟩])).2 = true ∧
    (runSched (fun _ _ _ => AttemptOutcome.evalOk "x" "yes") 0 2
        ([⟨"a", []⟩, ⟨"b", ["a"]⟩] : List SAction).length.succ
        (initState [⟨"a", []⟩, ⟨"b", ["a"]⟩])).1.genCalls = 2 ∧
    dispatchCount (runSched (fun _ _ _ => AttemptOutcome.evalOk "x" "yes") 0 2
        ([⟨"a", []⟩, ⟨"b", ["a"]⟩] : List SAction).length.succ
        (initState [⟨"a", []⟩, ⟨"b", ["a"]⟩])).1.trace "b" = 1 :=
  have h := claim_C9 [⟨"a", []⟩, ⟨"b", ["a"]⟩]
    (fun id => if id = "b" then 1 else 0)
    (fun _ _ _ => AttemptOutcome.evalOk "x" "yes") 0 2
    (by decide) (by decide) (by decide)
    (fun _ _ => ⟨"x", "yes", rfl, (by decide : isRejected "yes" = false)⟩)
    (by omega)
  ⟨h.2.1, h.2.2.2.1, h.2.2.2.2.2 ⟨"b", ["a"]⟩ (by decide)⟩

end Planner
